import Mathlib

/-!
Verification of the Duck Machine DM2019W CPU model (`cpu.py`).

The development shallowly embeds the CPU core: the arithmetic-logic unit
(`ALU.exec`), the fetch-decode-execute cycle (`step`), and the run loop
(`run`).  The collaborators `instr_format.py`, `memory.py`, `register.py`
and `mvc.py` are not part of the core source; the small interface surface
the core needs from them (condition-flag bit masks, decoded instruction
fields, register get/put with the zero-register variant, flat memory
get/put) is modelled from the specification, as noted on each definition.
-/

namespace DuckMachine

/-- Opcodes of the Duck Machine instruction set (`OpCode` in
`instr_format.py`, enumerated exactly as used by `cpu.py`). -/
inductive OpCode where
  | ADD
  | SUB
  | MUL
  | DIV
  | LOAD
  | STORE
  | HALT
deriving DecidableEq, Repr

/-- Modelled from the spec: `CondFlag` lives in `instr_format.py`, which is
not part of the core source.  It is a bit-flag enumeration with distinct
bits M (negative), Z (zero), P (positive), V (invalid), combined and
tested via bitwise AND; ALWAYS is the union of all four.  We represent a
flag value by its underlying bit mask. -/
abbrev CondFlag := Nat

/-- Negative-result flag bit. -/
def CondFlag.M : CondFlag := 1

/-- Zero-result flag bit. -/
def CondFlag.Z : CondFlag := 2

/-- Positive-result flag bit. -/
def CondFlag.P : CondFlag := 4

/-- Invalid-operation (e.g. division by zero) flag bit. -/
def CondFlag.V : CondFlag := 8

/-- Condition mask satisfied by every flag: the union of M, Z, P, V. -/
def CondFlag.ALWAYS : CondFlag := 15

/-- Modelled from the spec: the decoded instruction produced by
`instr_format.decode`, with the fields `cpu.py` reads: operation code,
condition mask, target register index, two source register indices, and a
signed immediate offset.  Register indices are 4-bit fields, hence
`Fin 16`. -/
structure Instruction where
  op : OpCode
  cond : CondFlag
  reg_target : Fin 16
  reg_src1 : Fin 16
  reg_src2 : Fin 16
  offset : Int
deriving DecidableEq, Repr

/-- The ALU operation table `ALU.ALU_OPS` of `cpu.py`: ADD, SUB, MUL are
the exact integer operations; DIV is Python `//`, i.e. floor division
(`Int.fdiv`); LOAD and STORE perform the address addition; HALT computes
0. -/
def ALU_OPS : OpCode → Int → Int → Int
  | .ADD, x, y => x + y
  | .SUB, x, y => x - y
  | .MUL, x, y => x * y
  | .DIV, x, y => Int.fdiv x y
  | .LOAD, x, y => x + y
  | .STORE, x, y => x + y
  | .HALT, _, _ => 0

namespace ALU

/-- The method `ALU.exec` of `cpu.py`: apply the selected operation and
derive the condition flag from the sign of the result.  The Python body
wraps the table application in `try`/`except`; the only operation that can
raise is `//` with a zero divisor (`ZeroDivisionError`), which the handler
maps to `(0, CondFlag.V)`.  The embedding makes that one failure case
explicit, so the function is total: no error ever propagates out of the
ALU. -/
def exec (op : OpCode) (in1 in2 : Int) : Int × CondFlag :=
  if op = .DIV ∧ in2 = 0 then
    (0, CondFlag.V)
  else
    let result := ALU_OPS op in1 in2
    if result < 0 then (result, CondFlag.M)
    else if result = 0 then (result, CondFlag.Z)
    else (result, CondFlag.P)

end ALU

/-- The flag the specification requires for a numeric result: negative →
M, zero → Z, positive → P. -/
def signFlag (r : Int) : CondFlag :=
  if r < 0 then CondFlag.M
  else if r = 0 then CondFlag.Z
  else CondFlag.P

/-- The CPU state of `cpu.py`: the register bank (16 cells, index 0 the
zero-constant register, index 15 the program counter), the flat memory the
CPU is connected to, the current condition flag, and the halted status.
Memory is modelled from the spec (`memory.py` is not part of the core
source) as a flat, unbounded integer-addressed store; address-range faults
are outside the claims considered here.  The register bank is stored as a
raw value table; the zero-register semantics live in `getReg`/`putReg`. -/
structure CPUState where
  memory : Int → Int
  regs : Fin 16 → Int
  condition : CondFlag
  halted : Bool

/-- Modelled from the spec: reading register `i` through its
`Register.get` method (`register.py` is not part of the core source).
Register 0 is the `ZeroRegister`, which always reads zero. -/
def getReg (s : CPUState) (i : Fin 16) : Int :=
  if i = 0 then 0 else s.regs i

/-- Modelled from the spec: writing register `i` through its
`Register.put` method.  Register 0 is the `ZeroRegister`, which silently
discards writes. -/
def putReg (s : CPUState) (i : Fin 16) (v : Int) : CPUState :=
  if i = 0 then s else { s with regs := Function.update s.regs i v }

/-- The step event `CPUStep` of `cpu.py`: an immutable snapshot of the
program-counter address at fetch time, the raw instruction word, and the
decoded instruction.  (The Python object also carries a reference to the
CPU itself as `subject`; in the pure embedding the observable snapshot is
exactly these three fields.) -/
structure CPUStep where
  pc_addr : Int
  instr_word : Int
  instr : Instruction
deriving DecidableEq, Repr

/-- One primitive externally visible action of a `step` cycle: the
observer notification, the operand-register reads, the ALU invocation, and
each state mutation (program-counter write, memory write, register write,
condition-flag update, halted update). -/
inductive Action where
  | notify (ev : CPUStep)
  | readReg (i : Fin 16)
  | aluCall (op : OpCode) (left right : Int)
  | putPC (v : Int)
  | memWrite (addr val : Int)
  | regWrite (i : Fin 16) (v : Int)
  | setCond (f : CondFlag)
  | setHalted
deriving DecidableEq, Repr

/-- The method `CPU.step` of `cpu.py`: fetch the word at the program
counter, decode it, notify observers, test the conditional predicate, and
if it is satisfied read the operands, invoke the ALU, advance the program
counter, and apply the opcode-specific effect; otherwise just advance the
program counter.  The decoder (`instr_format.decode`) is an external pure
function and is passed in as a parameter. -/
def step (decode : Int → Instruction) (s : CPUState) : CPUState :=
  let counter := getReg s 15
  let instr_word := s.memory counter
  let instr := decode instr_word
  if s.condition &&& instr.cond ≠ 0 then
    let left_op := getReg s instr.reg_src1
    let right_op := getReg s instr.reg_src2 + instr.offset
    let rc := ALU.exec instr.op left_op right_op
    let s1 := putReg s 15 (counter + 1)
    match instr.op with
    | .STORE => { s1 with memory := Function.update s1.memory rc.1 (getReg s1 instr.reg_target) }
    | .LOAD => putReg s1 instr.reg_target (s1.memory rc.1)
    | .HALT => { s1 with halted := true }
    | _ => { putReg s1 instr.reg_target rc.1 with condition := rc.2 }
  else
    putReg s 15 (counter + 1)

/-- The sequence of externally visible actions performed by one
`CPU.step` call, in the order the Python statements execute them: the
observer notification comes first, then (when the predicate is satisfied)
the operand reads, the ALU call, the program-counter write, and the
opcode-specific mutations. -/
def stepActions (decode : Int → Instruction) (s : CPUState) : List Action :=
  let counter := getReg s 15
  let instr_word := s.memory counter
  let instr := decode instr_word
  Action.notify ⟨counter, instr_word, instr⟩ ::
    (if s.condition &&& instr.cond ≠ 0 then
      let left_op := getReg s instr.reg_src1
      let right_op := getReg s instr.reg_src2 + instr.offset
      let rc := ALU.exec instr.op left_op right_op
      let s1 := putReg s 15 (counter + 1)
      [Action.readReg instr.reg_src1, Action.readReg instr.reg_src2,
       Action.aluCall instr.op left_op right_op, Action.putPC (counter + 1)] ++
        (match instr.op with
         | .STORE => [Action.memWrite rc.1 (getReg s1 instr.reg_target)]
         | .LOAD => [Action.regWrite instr.reg_target (s1.memory rc.1)]
         | .HALT => [Action.setHalted]
         | _ => [Action.regWrite instr.reg_target rc.1, Action.setCond rc.2])
    else
      [Action.putPC (counter + 1)])

/-- The state mutation performed by a single action.  Notifications,
register reads and the ALU call do not mutate CPU state. -/
def applyAction (s : CPUState) : Action → CPUState
  | .notify _ => s
  | .readReg _ => s
  | .aluCall _ _ _ => s
  | .putPC v => putReg s 15 v
  | .memWrite addr val => { s with memory := Function.update s.memory addr val }
  | .regWrite i v => putReg s i v
  | .setCond f => { s with condition := f }
  | .setHalted => { s with halted := true }

/-- The state `CPU.run` establishes before entering its loop: halted is
reset to false and the program counter is set to the starting address
(lines `self.halted = False; self.pc.put(from_addr)` of `cpu.py`). -/
def runInit (from_addr : Int) (s : CPUState) : CPUState :=
  putReg { s with halted := false } 15 from_addr

/-- The `while not self.halted: self.step()` loop of `CPU.run`,
fuel-indexed because the Python loop need not terminate.  `some (t, n)`
means the loop exited with final state `t` after `n` calls to `step`;
`none` means the fuel ran out with the machine still running.  The
`single_step` pause of the Python code only blocks for console input and
performs no state change, so it does not appear in the model. -/
def runLoop (decode : Int → Instruction) : Nat → CPUState → Option (CPUState × Nat)
  | 0, s => if s.halted then some (s, 0) else none
  | fuel + 1, s =>
    if s.halted then some (s, 0)
    else
      match runLoop decode fuel (step decode s) with
      | some (t, n) => some (t, n + 1)
      | none => none

/-- The method `CPU.run` of `cpu.py`: reset halted, set the program
counter to the starting address, then step until halted. -/
def run (decode : Int → Instruction) (fuel : Nat) (from_addr : Int)
    (s : CPUState) : Option (CPUState × Nat) :=
  runLoop decode fuel (runInit from_addr s)

/-- The instruction a `step` from state `s` fetches and decodes: the
decoder applied to the memory word at the program counter. -/
def fetched (decode : Int → Instruction) (s : CPUState) : Instruction :=
  decode (s.memory (getReg s 15))

/-- The state built by `CPU.__init__`: all registers zero, condition flag
ALWAYS, halted false, connected to the given memory. -/
def initCPU (mem : Int → Int) : CPUState :=
  { memory := mem, regs := fun _ => 0, condition := CondFlag.ALWAYS,
    halted := false }

/-- A decoder that decodes every word to the same instruction; used to
instantiate theorems at concrete inputs. -/
def decodeConst (i : Instruction) : Int → Instruction := fun _ => i

/-! Floor division facts: Python `//` (embedded as `Int.fdiv`) is the
floor quotient, i.e. `⌊a / b⌋` over the rationals. -/

/-- Negating both operands leaves the floor quotient unchanged. -/
theorem fdiv_neg_neg : ∀ a b : Int, Int.fdiv (-a) (-b) = Int.fdiv a b
  | .ofNat 0, b => by
      rw [show -Int.ofNat 0 = 0 from rfl]
      simp
  | .ofNat (m + 1), .ofNat 0 => by
      rw [show -Int.ofNat 0 = 0 from rfl]
      simp
  | .ofNat (m + 1), .ofNat (n + 1) => rfl
  | .ofNat (m + 1), .negSucc n => rfl
  | .negSucc m, .ofNat 0 => by
      rw [show -Int.ofNat 0 = 0 from rfl]
      simp
  | .negSucc m, .ofNat (n + 1) => rfl
  | .negSucc m, .negSucc n => rfl

/-- For a positive divisor, `Int.fdiv` is the floor of the rational
quotient. -/
theorem fdiv_eq_floor_of_pos (a : Int) {b : Int} (hb : 0 < b) :
    Int.fdiv a b = ⌊(a : ℚ) / (b : ℚ)⌋ := by
  rw [Int.fdiv_eq_ediv a hb.le]
  have hbn : ((b.toNat : ℤ)) = b := Int.toNat_of_nonneg hb.le
  have h := Rat.floor_intCast_div_natCast a b.toNat
  rw [hbn] at h
  rw [← h]
  norm_cast
  rw [hbn]

/-- For any nonzero divisor, `Int.fdiv` is the floor of the rational
quotient: Python `//` rounds toward negative infinity. -/
theorem fdiv_eq_floor (a : Int) {b : Int} (hb : b ≠ 0) :
    Int.fdiv a b = ⌊(a : ℚ) / (b : ℚ)⌋ := by
  rcases hb.lt_or_lt with hneg | hpos
  · have h := fdiv_eq_floor_of_pos (-a) (b := -b) (by omega)
    rw [fdiv_neg_neg] at h
    rw [h]
    congr 1
    push_cast
    rw [neg_div_neg_eq]
  · exact fdiv_eq_floor_of_pos a hpos

/-! Basic facts about the register bank and the ALU used throughout. -/

/-- Outside the forced-zero failure case, `ALU.exec` returns the table
value together with its sign flag. -/
theorem exec_eq_signFlag (op : OpCode) (a b : Int) (h : ¬(op = .DIV ∧ b = 0)) :
    ALU.exec op a b = (ALU_OPS op a b, signFlag (ALU_OPS op a b)) := by
  unfold ALU.exec signFlag
  rw [if_neg h]
  dsimp only
  split_ifs <;> rfl

/-- Writing a register other than the zero register and reading it back
gives the written value. -/
theorem getReg_putReg_self (s : CPUState) {i : Fin 16} (v : Int) (h : i ≠ 0) :
    getReg (putReg s i v) i = v := by
  unfold getReg putReg
  rw [if_neg h, if_neg h]
  simp

/-- Writing one register leaves every other register unchanged. -/
theorem getReg_putReg_ne (s : CPUState) {i j : Fin 16} (v : Int) (h : j ≠ i) :
    getReg (putReg s i v) j = getReg s j := by
  unfold getReg putReg
  split_ifs with h0 <;> simp [Function.update, h, h.symm]

/-- Register writes do not touch memory. -/
theorem putReg_memory (s : CPUState) (i : Fin 16) (v : Int) :
    (putReg s i v).memory = s.memory := by
  unfold putReg
  split_ifs <;> rfl

/-- Register writes do not touch the condition flag. -/
theorem putReg_condition (s : CPUState) (i : Fin 16) (v : Int) :
    (putReg s i v).condition = s.condition := by
  unfold putReg
  split_ifs <;> rfl

/-- Register writes do not touch the halted status. -/
theorem putReg_halted (s : CPUState) (i : Fin 16) (v : Int) :
    (putReg s i v).halted = s.halted := by
  unfold putReg
  split_ifs <;> rfl

/-- C1: for every arithmetic opcode in {ADD, SUB, MUL, DIV} and all
integers `(a, b)` with `b ≠ 0` when the opcode is DIV, `ALU.exec`
returns the exact arithmetic value (sum, difference, product, or floor
quotient rounding toward negative infinity) paired with the flag matching
the result's sign: M if negative, Z if zero, P if positive. -/
theorem alu_arith_exact (a b : Int) :
    ALU.exec .ADD a b = (a + b, signFlag (a + b)) ∧
    ALU.exec .SUB a b = (a - b, signFlag (a - b)) ∧
    ALU.exec .MUL a b = (a * b, signFlag (a * b)) ∧
    (b ≠ 0 →
      ALU.exec .DIV a b = (⌊(a : ℚ) / (b : ℚ)⌋, signFlag ⌊(a : ℚ) / (b : ℚ)⌋)) := by
  refine ⟨?_, ?_, ?_, ?_⟩
  · exact exec_eq_signFlag .ADD a b (by simp)
  · exact exec_eq_signFlag .SUB a b (by simp)
  · exact exec_eq_signFlag .MUL a b (by simp)
  · intro hb
    have h := exec_eq_signFlag .DIV a b (by simp [hb])
    rw [h]
    rw [show ALU_OPS .DIV a b = Int.fdiv a b from rfl, fdiv_eq_floor a hb]

/-- Witness for C1 at `a = -9`, `b = 7`: the divisor is nonzero and the
division conjunct evaluates there. -/
theorem alu_arith_exact_witness :
    (7 : Int) ≠ 0 ∧
      ALU.exec .DIV (-9) 7 =
        (⌊((-9 : Int) : ℚ) / ((7 : Int) : ℚ)⌋,
          signFlag ⌊((-9 : Int) : ℚ) / ((7 : Int) : ℚ)⌋) :=
  ⟨by norm_num, (alu_arith_exact (-9) 7).2.2.2 (by norm_num)⟩

/-- C2: for every integer `a`, `ALU.exec DIV a 0` returns `(0, V)`; the
function is total, so no error propagates out of the ALU. -/
theorem alu_div_by_zero (a : Int) : ALU.exec .DIV a 0 = (0, CondFlag.V) := by
  unfold ALU.exec
  rw [if_pos ⟨rfl, rfl⟩]

/-! Characterizations of one `step`, split by predicate outcome and
opcode.  Each mirrors the corresponding branch of `CPU.step`. -/

/-- Updating the condition flag does not change any register value. -/
theorem getReg_set_condition (s : CPUState) (c : CondFlag) (i : Fin 16) :
    getReg { s with condition := c } i = getReg s i := rfl

/-- Updating the halted status does not change any register value. -/
theorem getReg_set_halted (s : CPUState) (b : Bool) (i : Fin 16) :
    getReg { s with halted := b } i = getReg s i := rfl

/-- A step whose predicate is unsatisfied only bumps the program
counter. -/
theorem step_unsat_eq (decode : Int → Instruction) (s : CPUState)
    (h : s.condition &&& (fetched decode s).cond = 0) :
    step decode s = putReg s 15 (getReg s 15 + 1) := by
  simp only [fetched] at h
  simp only [step]
  rw [if_neg (by simp [h])]

/-- A step whose predicate is unsatisfied performs only the observer
notification and the program-counter write. -/
theorem stepActions_unsat_eq (decode : Int → Instruction) (s : CPUState)
    (h : s.condition &&& (fetched decode s).cond = 0) :
    stepActions decode s =
      [Action.notify ⟨getReg s 15, s.memory (getReg s 15), fetched decode s⟩,
       Action.putPC (getReg s 15 + 1)] := by
  simp only [fetched] at h ⊢
  simp only [stepActions]
  rw [if_neg (by simp [h])]

/-- A satisfied STORE writes the target register's current value to
memory at the computed address and bumps the program counter. -/
theorem step_store_eq (decode : Int → Instruction) (s : CPUState)
    (hsat : s.condition &&& (fetched decode s).cond ≠ 0)
    (hop : (fetched decode s).op = .STORE) :
    step decode s =
      { putReg s 15 (getReg s 15 + 1) with
          memory := Function.update s.memory
            (getReg s (fetched decode s).reg_src1 +
              getReg s (fetched decode s).reg_src2 + (fetched decode s).offset)
            (getReg (putReg s 15 (getReg s 15 + 1))
              (fetched decode s).reg_target) } := by
  simp only [fetched] at hsat hop ⊢
  simp only [step]
  rw [if_pos hsat, hop]
  rw [exec_eq_signFlag .STORE _ _ (by simp)]
  rw [show ALU_OPS .STORE (getReg s (decode (s.memory (getReg s 15))).reg_src1)
        (getReg s (decode (s.memory (getReg s 15))).reg_src2 +
          (decode (s.memory (getReg s 15))).offset) =
      getReg s (decode (s.memory (getReg s 15))).reg_src1 +
        getReg s (decode (s.memory (getReg s 15))).reg_src2 +
        (decode (s.memory (getReg s 15))).offset from (add_assoc _ _ _).symm]
  rw [putReg_memory]

/-- A satisfied LOAD reads memory at the computed address into the target
register and bumps the program counter. -/
theorem step_load_eq (decode : Int → Instruction) (s : CPUState)
    (hsat : s.condition &&& (fetched decode s).cond ≠ 0)
    (hop : (fetched decode s).op = .LOAD) :
    step decode s =
      putReg (putReg s 15 (getReg s 15 + 1)) (fetched decode s).reg_target
        (s.memory
          (getReg s (fetched decode s).reg_src1 +
            getReg s (fetched decode s).reg_src2 + (fetched decode s).offset)) := by
  simp only [fetched] at hsat hop ⊢
  simp only [step]
  rw [if_pos hsat, hop]
  rw [exec_eq_signFlag .LOAD _ _ (by simp)]
  rw [show ALU_OPS .LOAD (getReg s (decode (s.memory (getReg s 15))).reg_src1)
        (getReg s (decode (s.memory (getReg s 15))).reg_src2 +
          (decode (s.memory (getReg s 15))).offset) =
      getReg s (decode (s.memory (getReg s 15))).reg_src1 +
        getReg s (decode (s.memory (getReg s 15))).reg_src2 +
        (decode (s.memory (getReg s 15))).offset from (add_assoc _ _ _).symm]
  rw [putReg_memory]

/-- A satisfied HALT sets the halted status and bumps the program
counter. -/
theorem step_halt_eq (decode : Int → Instruction) (s : CPUState)
    (hsat : s.condition &&& (fetched decode s).cond ≠ 0)
    (hop : (fetched decode s).op = .HALT) :
    step decode s = { putReg s 15 (getReg s 15 + 1) with halted := true } := by
  simp only [fetched] at hsat hop ⊢
  simp only [step]
  rw [if_pos hsat, hop]

/-- A satisfied arithmetic instruction bumps the program counter, writes
the ALU result to the target register, and installs the derived flag. -/
theorem step_arith_eq (decode : Int → Instruction) (s : CPUState)
    (hsat : s.condition &&& (fetched decode s).cond ≠ 0)
    (hop : (fetched decode s).op = .ADD ∨ (fetched decode s).op = .SUB ∨
      (fetched decode s).op = .MUL ∨ (fetched decode s).op = .DIV) :
    step decode s =
      { putReg (putReg s 15 (getReg s 15 + 1)) (fetched decode s).reg_target
          (ALU.exec (fetched decode s).op (getReg s (fetched decode s).reg_src1)
            (getReg s (fetched decode s).reg_src2 + (fetched decode s).offset)).1
        with condition :=
          (ALU.exec (fetched decode s).op (getReg s (fetched decode s).reg_src1)
            (getReg s (fetched decode s).reg_src2 + (fetched decode s).offset)).2 } := by
  simp only [fetched] at hsat hop ⊢
  simp only [step]
  rw [if_pos hsat]
  rcases hop with h | h | h | h <;> rw [h]

/-- C3: for every CPU state and fetched instruction whose condition mask
ANDed with the current condition flag is zero, one `step` increments the
program counter by exactly 1 and leaves the condition flag, the halted
status, memory, and all non-program-counter registers unchanged; the
action trace shows no operand read and no ALU invocation, only the
observer notification and the program-counter write. -/
theorem step_unsatisfied_frame (decode : Int → Instruction) (s : CPUState)
    (h : s.condition &&& (fetched decode s).cond = 0) :
    (step decode s).memory = s.memory ∧
    (step decode s).condition = s.condition ∧
    (step decode s).halted = s.halted ∧
    (∀ i : Fin 16, i ≠ 15 → getReg (step decode s) i = getReg s i) ∧
    getReg (step decode s) 15 = getReg s 15 + 1 ∧
    stepActions decode s =
      [Action.notify ⟨getReg s 15, s.memory (getReg s 15), fetched decode s⟩,
       Action.putPC (getReg s 15 + 1)] := by
  have hstep := step_unsat_eq decode s h
  refine ⟨?_, ?_, ?_, ?_, ?_, stepActions_unsat_eq decode s h⟩
  · rw [hstep, putReg_memory]
  · rw [hstep, putReg_condition]
  · rw [hstep, putReg_halted]
  · intro i hi
    rw [hstep, getReg_putReg_ne s _ hi]
  · rw [hstep, getReg_putReg_self s _ (by decide)]

/-- Witness for C3: with condition flag Z and an instruction requiring P,
the predicate is unsatisfied and the program counter advances by one. -/
theorem step_unsatisfied_frame_witness :
    ({ initCPU fun _ => 0 with condition := CondFlag.Z } : CPUState).condition &&&
        (fetched (decodeConst ⟨.ADD, CondFlag.P, 1, 0, 0, 5⟩)
          { initCPU fun _ => 0 with condition := CondFlag.Z }).cond = 0 ∧
      getReg (step (decodeConst ⟨.ADD, CondFlag.P, 1, 0, 0, 5⟩)
          { initCPU fun _ => 0 with condition := CondFlag.Z }) 15 =
        getReg ({ initCPU fun _ => 0 with condition := CondFlag.Z } : CPUState) 15 + 1 :=
  ⟨by decide,
    (step_unsatisfied_frame (decodeConst ⟨.ADD, CondFlag.P, 1, 0, 0, 5⟩)
      { initCPU fun _ => 0 with condition := CondFlag.Z } (by decide)).2.2.2.2.1⟩

/-- C4: for every satisfied LOAD or STORE instruction, the effective
address is value(source-register-1) + value(source-register-2) +
immediate offset; STORE writes the target register's current value (read
after the program-counter bump, not the ALU operands or result) into
memory at that address, and LOAD reads memory at that address and writes
the read value into the target register. -/
theorem step_load_store_addressing (decode : Int → Instruction) (s : CPUState)
    (hsat : s.condition &&& (fetched decode s).cond ≠ 0) :
    ((fetched decode s).op = .STORE →
      step decode s =
        { putReg s 15 (getReg s 15 + 1) with
            memory := Function.update s.memory
              (getReg s (fetched decode s).reg_src1 +
                getReg s (fetched decode s).reg_src2 + (fetched decode s).offset)
              (getReg (putReg s 15 (getReg s 15 + 1))
                (fetched decode s).reg_target) }) ∧
    ((fetched decode s).op = .LOAD →
      step decode s =
        putReg (putReg s 15 (getReg s 15 + 1)) (fetched decode s).reg_target
          (s.memory
            (getReg s (fetched decode s).reg_src1 +
              getReg s (fetched decode s).reg_src2 + (fetched decode s).offset))) :=
  ⟨step_store_eq decode s hsat, step_load_eq decode s hsat⟩

/-- Witness for C4: a STORE of register 1 with offset 100 from the
freshly constructed CPU writes that register's value to address 100. -/
theorem step_load_store_addressing_witness :
    ((initCPU fun _ => 0).condition &&&
        (fetched (decodeConst ⟨.STORE, CondFlag.ALWAYS, 1, 0, 0, 100⟩)
          (initCPU fun _ => 0)).cond ≠ 0) ∧
    ((fetched (decodeConst ⟨.STORE, CondFlag.ALWAYS, 1, 0, 0, 100⟩)
        (initCPU fun _ => 0)).op = .STORE) ∧
    step (decodeConst ⟨.STORE, CondFlag.ALWAYS, 1, 0, 0, 100⟩) (initCPU fun _ => 0) =
      { putReg (initCPU fun _ => 0) 15 (getReg (initCPU fun _ => 0) 15 + 1) with
          memory := Function.update (initCPU fun _ => 0).memory
            (getReg (initCPU fun _ => 0)
                (fetched (decodeConst ⟨.STORE, CondFlag.ALWAYS, 1, 0, 0, 100⟩)
                  (initCPU fun _ => 0)).reg_src1 +
              getReg (initCPU fun _ => 0)
                (fetched (decodeConst ⟨.STORE, CondFlag.ALWAYS, 1, 0, 0, 100⟩)
                  (initCPU fun _ => 0)).reg_src2 +
              (fetched (decodeConst ⟨.STORE, CondFlag.ALWAYS, 1, 0, 0, 100⟩)
                (initCPU fun _ => 0)).offset)
            (getReg (putReg (initCPU fun _ => 0) 15 (getReg (initCPU fun _ => 0) 15 + 1))
              (fetched (decodeConst ⟨.STORE, CondFlag.ALWAYS, 1, 0, 0, 100⟩)
                (initCPU fun _ => 0)).reg_target) } :=
  ⟨by decide, by decide,
    (step_load_store_addressing (decodeConst ⟨.STORE, CondFlag.ALWAYS, 1, 0, 0, 100⟩)
      (initCPU fun _ => 0) (by decide)).1 (by decide)⟩

/-- C5: a satisfied ADD, SUB, MUL, or DIV writes the ALU result into the
target register and sets the CPU-wide condition flag to the ALU's derived
flag, whereas a LOAD, STORE, or HALT (satisfied or not) leaves the
condition flag unchanged. -/
theorem step_flag_discipline (decode : Int → Instruction) (s : CPUState) :
    (s.condition &&& (fetched decode s).cond ≠ 0 →
      ((fetched decode s).op = .ADD ∨ (fetched decode s).op = .SUB ∨
        (fetched decode s).op = .MUL ∨ (fetched decode s).op = .DIV) →
      step decode s =
        { putReg (putReg s 15 (getReg s 15 + 1)) (fetched decode s).reg_target
            (ALU.exec (fetched decode s).op (getReg s (fetched decode s).reg_src1)
              (getReg s (fetched decode s).reg_src2 + (fetched decode s).offset)).1
          with condition :=
            (ALU.exec (fetched decode s).op (getReg s (fetched decode s).reg_src1)
              (getReg s (fetched decode s).reg_src2 + (fetched decode s).offset)).2 }) ∧
    (((fetched decode s).op = .LOAD ∨ (fetched decode s).op = .STORE ∨
        (fetched decode s).op = .HALT) →
      (step decode s).condition = s.condition) := by
  refine ⟨step_arith_eq decode s, ?_⟩
  intro hop
  by_cases hsat : s.condition &&& (fetched decode s).cond ≠ 0
  · rcases hop with h | h | h
    · rw [step_load_eq decode s hsat h, putReg_condition, putReg_condition]
    · rw [step_store_eq decode s hsat h]
      show (putReg s 15 (getReg s 15 + 1)).condition = s.condition
      exact putReg_condition s 15 _
    · rw [step_halt_eq decode s hsat h]
      show (putReg s 15 (getReg s 15 + 1)).condition = s.condition
      exact putReg_condition s 15 _
  · push_neg at hsat
    rw [step_unsat_eq decode s hsat, putReg_condition]

/-- Witness for C5: a satisfied ADD of 0 + 5 into register 1 from the
freshly constructed CPU, exercising the arithmetic conjunct. -/
theorem step_flag_discipline_witness :
    ((initCPU fun _ => 0).condition &&&
        (fetched (decodeConst ⟨.ADD, CondFlag.ALWAYS, 1, 0, 0, 5⟩)
          (initCPU fun _ => 0)).cond ≠ 0) ∧
    ((fetched (decodeConst ⟨.ADD, CondFlag.ALWAYS, 1, 0, 0, 5⟩)
        (initCPU fun _ => 0)).op = .ADD) ∧
    step (decodeConst ⟨.ADD, CondFlag.ALWAYS, 1, 0, 0, 5⟩) (initCPU fun _ => 0) =
      { putReg (putReg (initCPU fun _ => 0) 15 (getReg (initCPU fun _ => 0) 15 + 1))
          (fetched (decodeConst ⟨.ADD, CondFlag.ALWAYS, 1, 0, 0, 5⟩)
            (initCPU fun _ => 0)).reg_target
          (ALU.exec
            (fetched (decodeConst ⟨.ADD, CondFlag.ALWAYS, 1, 0, 0, 5⟩)
              (initCPU fun _ => 0)).op
            (getReg (initCPU fun _ => 0)
              (fetched (decodeConst ⟨.ADD, CondFlag.ALWAYS, 1, 0, 0, 5⟩)
                (initCPU fun _ => 0)).reg_src1)
            (getReg (initCPU fun _ => 0)
                (fetched (decodeConst ⟨.ADD, CondFlag.ALWAYS, 1, 0, 0, 5⟩)
                  (initCPU fun _ => 0)).reg_src2 +
              (fetched (decodeConst ⟨.ADD, CondFlag.ALWAYS, 1, 0, 0, 5⟩)
                (initCPU fun _ => 0)).offset)).1
        with condition :=
          (ALU.exec
            (fetched (decodeConst ⟨.ADD, CondFlag.ALWAYS, 1, 0, 0, 5⟩)
              (initCPU fun _ => 0)).op
            (getReg (initCPU fun _ => 0)
              (fetched (decodeConst ⟨.ADD, CondFlag.ALWAYS, 1, 0, 0, 5⟩)
                (initCPU fun _ => 0)).reg_src1)
            (getReg (initCPU fun _ => 0)
                (fetched (decodeConst ⟨.ADD, CondFlag.ALWAYS, 1, 0, 0, 5⟩)
                  (initCPU fun _ => 0)).reg_src2 +
              (fetched (decodeConst ⟨.ADD, CondFlag.ALWAYS, 1, 0, 0, 5⟩)
                (initCPU fun _ => 0)).offset)).2 } :=
  ⟨by decide, by decide,
    (step_flag_discipline (decodeConst ⟨.ADD, CondFlag.ALWAYS, 1, 0, 0, 5⟩)
      (initCPU fun _ => 0)).1 (by decide) (by decide)⟩

/-- C10: a satisfied ADD, SUB, MUL, or DIV whose target register index is
15 leaves the program counter equal to the ALU result: the automatic
increment is overwritten by the result write, so the instruction acts as
a jump to the computed address. -/
theorem step_arith_pc_jump (decode : Int → Instruction) (s : CPUState)
    (hsat : s.condition &&& (fetched decode s).cond ≠ 0)
    (hop : (fetched decode s).op = .ADD ∨ (fetched decode s).op = .SUB ∨
      (fetched decode s).op = .MUL ∨ (fetched decode s).op = .DIV)
    (htgt : (fetched decode s).reg_target = 15) :
    getReg (step decode s) 15 =
      (ALU.exec (fetched decode s).op (getReg s (fetched decode s).reg_src1)
        (getReg s (fetched decode s).reg_src2 + (fetched decode s).offset)).1 := by
  rw [step_arith_eq decode s hsat hop, getReg_set_condition, htgt,
    getReg_putReg_self _ _ (by decide)]

/-- Witness for C10: an ADD targeting register 15 with offset 7 sets the
program counter to 7, not to the incremented value 1. -/
theorem step_arith_pc_jump_witness :
    ((initCPU fun _ => 0).condition &&&
        (fetched (decodeConst ⟨.ADD, CondFlag.ALWAYS, 15, 0, 0, 7⟩)
          (initCPU fun _ => 0)).cond ≠ 0) ∧
    getReg (step (decodeConst ⟨.ADD, CondFlag.ALWAYS, 15, 0, 0, 7⟩)
        (initCPU fun _ => 0)) 15 =
      (ALU.exec
        (fetched (decodeConst ⟨.ADD, CondFlag.ALWAYS, 15, 0, 0, 7⟩)
          (initCPU fun _ => 0)).op
        (getReg (initCPU fun _ => 0)
          (fetched (decodeConst ⟨.ADD, CondFlag.ALWAYS, 15, 0, 0, 7⟩)
            (initCPU fun _ => 0)).reg_src1)
        (getReg (initCPU fun _ => 0)
            (fetched (decodeConst ⟨.ADD, CondFlag.ALWAYS, 15, 0, 0, 7⟩)
              (initCPU fun _ => 0)).reg_src2 +
          (fetched (decodeConst ⟨.ADD, CondFlag.ALWAYS, 15, 0, 0, 7⟩)
            (initCPU fun _ => 0)).offset)).1 :=
  ⟨by decide,
    step_arith_pc_jump (decodeConst ⟨.ADD, CondFlag.ALWAYS, 15, 0, 0, 7⟩)
      (initCPU fun _ => 0) (by decide) (by decide) (by decide)⟩

/-! The run loop. -/

/-- The loop returns immediately, with zero further steps, from any state
that is already halted. -/
theorem runLoop_of_halted (decode : Int → Instruction) {t : CPUState}
    (h : t.halted = true) : ∀ fuel, runLoop decode fuel t = some (t, 0) := by
  intro fuel
  cases fuel <;> simp [runLoop, h]

/-- When the loop exits with `(t, n)`, the final state is the `n`-fold
iterate of `step` from the entry state and is halted. -/
theorem runLoop_some_char (decode : Int → Instruction) :
    ∀ (fuel : Nat) (s t : CPUState) (n : Nat),
      runLoop decode fuel s = some (t, n) →
      t = (step decode)^[n] s ∧ t.halted = true := by
  intro fuel
  induction fuel with
  | zero =>
    intro s t n h
    simp only [runLoop] at h
    by_cases hh : s.halted = true
    · simp only [hh, if_true, Option.some.injEq, Prod.mk.injEq] at h
      obtain ⟨rfl, rfl⟩ := h
      simpa using hh
    · simp [hh] at h
  | succ fuel ih =>
    intro s t n h
    simp only [runLoop] at h
    by_cases hh : s.halted = true
    · simp only [hh, if_true, Option.some.injEq, Prod.mk.injEq] at h
      obtain ⟨rfl, rfl⟩ := h
      simpa using hh
    · simp only [hh, if_false] at h
      cases hr : runLoop decode fuel (step decode s) with
      | none =>
        rw [hr] at h
        simp at h
      | some p =>
        obtain ⟨t1, n1⟩ := p
        rw [hr] at h
        simp only [Option.some.injEq, Prod.mk.injEq] at h
        obtain ⟨rfl, rfl⟩ := h
        obtain ⟨h1, h2⟩ := ih (step decode s) t n1 hr
        refine ⟨?_, h2⟩
        rw [Function.iterate_succ_apply]
        exact h1

/-- C6: a HALT executed under a satisfied predicate sets halted and
leaves the program counter one past the HALT's address, and the enclosing
run loop terminates right after that cycle: from any not-yet-halted state
about to execute the HALT, the loop performs exactly that one step and
returns. -/
theorem step_halt_terminates (decode : Int → Instruction) (s : CPUState)
    (hsat : s.condition &&& (fetched decode s).cond ≠ 0)
    (hop : (fetched decode s).op = .HALT)
    (hrun : s.halted = false) :
    (step decode s).halted = true ∧
    getReg (step decode s) 15 = getReg s 15 + 1 ∧
    ∀ fuel, runLoop decode (fuel + 1) s = some (step decode s, 1) := by
  have hstep := step_halt_eq decode s hsat hop
  have hhalt : (step decode s).halted = true := by rw [hstep]
  refine ⟨hhalt, ?_, ?_⟩
  · rw [hstep, getReg_set_halted, getReg_putReg_self _ _ (by decide)]
  · intro fuel
    simp [runLoop, hrun, runLoop_of_halted decode hhalt fuel]

/-- Witness for C6: an always-satisfied HALT from the freshly constructed
CPU halts the machine with the program counter at 1. -/
theorem step_halt_terminates_witness :
    ((initCPU fun _ => 0).condition &&&
        (fetched (decodeConst ⟨.HALT, CondFlag.ALWAYS, 0, 0, 0, 0⟩)
          (initCPU fun _ => 0)).cond ≠ 0) ∧
    ((fetched (decodeConst ⟨.HALT, CondFlag.ALWAYS, 0, 0, 0, 0⟩)
        (initCPU fun _ => 0)).op = .HALT) ∧
    ((initCPU fun _ => 0).halted = false) ∧
    ((step (decodeConst ⟨.HALT, CondFlag.ALWAYS, 0, 0, 0, 0⟩)
        (initCPU fun _ => 0)).halted = true ∧
      getReg (step (decodeConst ⟨.HALT, CondFlag.ALWAYS, 0, 0, 0, 0⟩)
          (initCPU fun _ => 0)) 15 =
        getReg (initCPU fun _ => 0) 15 + 1 ∧
      ∀ fuel, runLoop (decodeConst ⟨.HALT, CondFlag.ALWAYS, 0, 0, 0, 0⟩) (fuel + 1)
          (initCPU fun _ => 0) =
        some (step (decodeConst ⟨.HALT, CondFlag.ALWAYS, 0, 0, 0, 0⟩)
          (initCPU fun _ => 0), 1)) :=
  ⟨by decide, by decide, by decide,
    step_halt_terminates (decodeConst ⟨.HALT, CondFlag.ALWAYS, 0, 0, 0, 0⟩)
      (initCPU fun _ => 0) (by decide) (by decide) (by decide)⟩

/-- C7: every `run` invocation enters its loop in a state with halted
reset to false and the program counter set to the starting address, while
registers 1–14 (and the zero register), the condition flag and memory are
exactly those of the pre-run state; the loop then repeatedly invokes
`step`, and whenever it returns, the final state is halted and is an
iterate of `step` from that entry state. -/
theorem run_resets_then_loops (decode : Int → Instruction) (fuel : Nat)
    (addr : Int) (s : CPUState) :
    run decode fuel addr s = runLoop decode fuel (runInit addr s) ∧
    (runInit addr s).halted = false ∧
    getReg (runInit addr s) 15 = addr ∧
    (∀ i : Fin 16, i ≠ 15 → getReg (runInit addr s) i = getReg s i) ∧
    (runInit addr s).condition = s.condition ∧
    (runInit addr s).memory = s.memory ∧
    (∀ t n, run decode fuel addr s = some (t, n) →
      t.halted = true ∧ t = (step decode)^[n] (runInit addr s)) := by
  refine ⟨rfl, ?_, ?_, ?_, ?_, ?_, ?_⟩
  · rw [runInit, putReg_halted]
  · rw [runInit, getReg_putReg_self _ _ (by decide)]
  · intro i hi
    rw [runInit, getReg_putReg_ne _ _ hi]
    rfl
  · rw [runInit, putReg_condition]
  · rw [runInit, putReg_memory]
  · intro t n h
    obtain ⟨h1, h2⟩ := runLoop_some_char decode fuel (runInit addr s) t n h
    exact ⟨h2, h1⟩

/-- Witness for C7: running an always-HALT program for two fuel units
returns after one step with a halted state, exercising the termination
conjunct at a concrete input. -/
theorem run_resets_then_loops_witness :
    run (decodeConst ⟨.HALT, CondFlag.ALWAYS, 0, 0, 0, 0⟩) 2 0 (initCPU fun _ => 0) =
      some (step (decodeConst ⟨.HALT, CondFlag.ALWAYS, 0, 0, 0, 0⟩)
        (runInit 0 (initCPU fun _ => 0)), 1) ∧
    ((step (decodeConst ⟨.HALT, CondFlag.ALWAYS, 0, 0, 0, 0⟩)
        (runInit 0 (initCPU fun _ => 0))).halted = true ∧
      step (decodeConst ⟨.HALT, CondFlag.ALWAYS, 0, 0, 0, 0⟩)
          (runInit 0 (initCPU fun _ => 0)) =
        (step (decodeConst ⟨.HALT, CondFlag.ALWAYS, 0, 0, 0, 0⟩))^[1]
          (runInit 0 (initCPU fun _ => 0))) := by
  have hrunw : run (decodeConst ⟨.HALT, CondFlag.ALWAYS, 0, 0, 0, 0⟩) 2 0
      (initCPU fun _ => 0) =
      some (step (decodeConst ⟨.HALT, CondFlag.ALWAYS, 0, 0, 0, 0⟩)
        (runInit 0 (initCPU fun _ => 0)), 1) := rfl
  exact ⟨hrunw,
    (run_resets_then_loops (decodeConst ⟨.HALT, CondFlag.ALWAYS, 0, 0, 0, 0⟩) 2 0
      (initCPU fun _ => 0)).2.2.2.2.2.2 _ 1 hrunw⟩

/-- C9: `run` executes at least one `step` even when the halted flag is
already true at the moment of the call, because halted is cleared before
the loop condition is first tested: the first loop iteration always runs
`step` on the entry state, and any returning run reports at least one
step. -/
theorem run_steps_even_when_halted (decode : Int → Instruction) (addr : Int)
    (s : CPUState) (h : s.halted = true) :
    (∀ fuel, run decode (fuel + 1) addr s =
      Option.map (fun p => (p.1, p.2 + 1))
        (runLoop decode fuel (step decode (runInit addr s)))) ∧
    (∀ fuel t n, run decode fuel addr s = some (t, n) → 1 ≤ n) := by
  have hinit : (runInit addr s).halted = false := by rw [runInit, putReg_halted]
  have hmap : ∀ fuel, run decode (fuel + 1) addr s =
      Option.map (fun p => (p.1, p.2 + 1))
        (runLoop decode fuel (step decode (runInit addr s))) := by
    intro fuel
    simp only [run, runLoop, hinit, Bool.false_eq_true, if_false]
    cases runLoop decode fuel (step decode (runInit addr s)) with
    | none => rfl
    | some p => rfl
  refine ⟨hmap, ?_⟩
  intro fuel t n hr
  cases fuel with
  | zero =>
    rw [run] at hr
    simp [runLoop, hinit] at hr
  | succ fuel =>
    rw [hmap fuel] at hr
    cases hp : runLoop decode fuel (step decode (runInit addr s)) with
    | none => rw [hp] at hr; exact absurd hr (by simp)
    | some p =>
      rw [hp] at hr
      have h2 : some (p.1, p.2 + 1) = some (t, n) := hr
      injection h2 with h3
      cases h3
      omega

/-- Witness for C9: a CPU whose halted flag is already true still steps
when run. -/
theorem run_steps_even_when_halted_witness :
    ({ initCPU fun _ => 0 with halted := true } : CPUState).halted = true ∧
    (∀ fuel, run (decodeConst ⟨.HALT, CondFlag.ALWAYS, 0, 0, 0, 0⟩) (fuel + 1) 0
        { initCPU fun _ => 0 with halted := true } =
      Option.map (fun p => (p.1, p.2 + 1))
        (runLoop (decodeConst ⟨.HALT, CondFlag.ALWAYS, 0, 0, 0, 0⟩) fuel
          (step (decodeConst ⟨.HALT, CondFlag.ALWAYS, 0, 0, 0, 0⟩)
            (runInit 0 { initCPU fun _ => 0 with halted := true })))) ∧
    (∀ fuel t n, run (decodeConst ⟨.HALT, CondFlag.ALWAYS, 0, 0, 0, 0⟩) fuel 0
        { initCPU fun _ => 0 with halted := true } = some (t, n) → 1 ≤ n) :=
  ⟨by decide,
    run_steps_even_when_halted (decodeConst ⟨.HALT, CondFlag.ALWAYS, 0, 0, 0, 0⟩) 0
      { initCPU fun _ => 0 with halted := true } (by decide)⟩

/-- C8: the step event — carrying the pre-execution program-counter
value, the raw fetched word, and the decoded instruction — is the first
action of every cycle's action trace, and so precedes every execution
side effect; notifying observers mutates nothing, and folding the
cycle's actions over the pre-state yields exactly `step`'s result, so the
trace accounts for all of the cycle's effects. -/
theorem step_event_before_effects (decode : Int → Instruction) (s : CPUState) :
    (∃ rest : List Action,
      stepActions decode s =
        Action.notify ⟨getReg s 15, s.memory (getReg s 15), fetched decode s⟩ :: rest) ∧
    (∀ ev : CPUStep, applyAction s (.notify ev) = s) ∧
    (stepActions decode s).foldl applyAction s = step decode s := by
  refine ⟨⟨_, rfl⟩, fun _ => rfl, ?_⟩
  by_cases hsat : s.condition &&& (fetched decode s).cond ≠ 0
  · simp only [fetched] at hsat
    simp only [stepActions, step, if_pos hsat]
    cases hop : (decode (s.memory (getReg s 15))).op <;>
      simp [List.foldl, applyAction]
  · push_neg at hsat
    simp only [fetched] at hsat
    simp only [stepActions, step]
    rw [if_neg (by simp [hsat]), if_neg (by simp [hsat])]
    rfl

end DuckMachine
